import Mathlib

/-!
Shallow embedding of the ATT&CK knowledge-graph query layer (`main-checkpoint.py`).

The repository is a catalog of parameterized Cypher queries over a Neo4j
property graph of MITRE ATT&CK objects, plus thin execution (scoped session)
and materialization (pandas `DataFrame`) logic.  We embed:

* the property graph as lists of attribute records (`Node`) and typed edges
  (`Edge` for `ATTACK_REL`, plus the structural `IN_TACTIC` edge list);
* each Cypher query as the standard list pipeline its clauses denote:
  `MATCH` produces one row per binding (per edge for relationship patterns),
  `OPTIONAL MATCH` expands each row by the matches or keeps it with a `none`
  binding, aggregation groups rows by the non-aggregated return expressions
  (first-occurrence key order), `collect(DISTINCT _)` deduplicates keeping
  first occurrences and skips nulls, `count(x)` counts non-null bindings,
  `ORDER BY` is a stable insertion sort, `LIMIT n` is `List.take n`;
* strings with the case-insensitive matching the queries use (`toLower` /
  `CONTAINS`) via ASCII lowering over `String.data`;
* timestamps as integer milliseconds (`datetime()` is the graph's `now`
  field, `duration({days:d})` is `d * 86400000`);
* the pandas materialization `df_from_result` (columns are the union of
  record keys in first-seen order; the empty record list yields a frame
  with no columns);
* the `with self.driver.session()` discipline of `AttackKG.query` as an
  explicit acquire/release step function over a session counter, where the
  body's outcome is an `Except` value (Python exceptions propagate, the
  context manager releases on both paths).
-/

/-- ASCII lowercase of a character, the fragment of Cypher `toLower`
exercised by the embedded queries. -/
def charLower (c : Char) : Char :=
  if 65 ≤ c.toNat ∧ c.toNat ≤ 90 then Char.ofNat (c.toNat + 32) else c

/-- Lowercased character list of a string (Cypher `toLower`). -/
def strLower (s : String) : List Char := s.data.map charLower

/-- Does the second list occur as a contiguous block at the head of the first? -/
def startsWithL : List Char → List Char → Bool
  | [], _ => true
  | _ :: _, [] => false
  | a :: as, b :: bs => a == b && startsWithL as bs

/-- Does `pat` occur contiguously anywhere in the list (Cypher `CONTAINS`)? -/
def hasSubL (pat : List Char) : List Char → Bool
  | [] => pat.isEmpty
  | b :: bs => startsWithL pat (b :: bs) || hasSubL pat bs

/-- Lexicographic order on character lists by code point. -/
def charListLe : List Char → List Char → Bool
  | [], _ => true
  | _ :: _, [] => false
  | a :: as, b :: bs =>
    if a.toNat < b.toNat then true
    else if b.toNat < a.toNat then false
    else charListLe as bs

/-- Total string order used to model Cypher `ORDER BY` on string columns. -/
def strLe (a b : String) : Bool := charListLe a.data b.data

/-- Deduplication keeping the FIRST occurrence of each element, the order
`collect(DISTINCT _)` and the pandas column union use. -/
def dedupFirst [DecidableEq α] : List α → List α
  | [] => []
  | a :: as => a :: (dedupFirst as).filter (fun b => decide (b ≠ a))

/-- Insert into a sorted list (kernel of the stable sort). -/
def insertBy (le : α → α → Bool) (a : α) : List α → List α
  | [] => [a]
  | b :: bs => if le a b then a :: b :: bs else b :: insertBy le a bs

/-- Stable insertion sort modelling Cypher `ORDER BY`. -/
def sortBy (le : α → α → Bool) : List α → List α
  | [] => []
  | a :: as => insertBy le a (sortBy le as)

/-- Cypher implicit grouping: group rows by a key, keys in first-occurrence
order, each key paired with all of its rows in row order. -/
def cypherGroup [DecidableEq κ] (key : ρ → κ) (rows : List ρ) : List (κ × List ρ) :=
  (dedupFirst (rows.map key)).map (fun k => (k, rows.filter (fun r => decide (key r = k))))

/-- `OPTIONAL MATCH` expansion: all matches, or a single `none` row. -/
def withNull : List α → List (Option α)
  | [] => [none]
  | a :: as => (a :: as).map some

/-- An ATT&CK entity node (label `:Attack`).  Every node carries exactly one
`stix_type`; attributes that the source reads with `coalesce`/optionality are
`Option`-valued.  `modified` is a timestamp in integer milliseconds. -/
structure Node where
  nid : Nat
  stix_type : String
  name : String
  shortname : String := ""
  platforms : Option (List String) := none
  domains : Option (List String) := none
  deprecated : Option Bool := none
  revoked : Option Bool := none
  modified : Int := 0
deriving Repr, DecidableEq

/-- A generic `ATTACK_REL` edge with its `rel_type` discriminator. -/
structure Edge where
  src : Nat
  dst : Nat
  rel_type : String
deriving Repr, DecidableEq

/-- The property graph: nodes, generic `ATTACK_REL` edges, the structural
`IN_TACTIC` edges (technique nid, tactic nid), and the current clock used by
`datetime()` (integer milliseconds). -/
structure Graph where
  nodes : List Node
  rels : List Edge
  inTactic : List (Nat × Nat)
  now : Int := 0
deriving Repr, DecidableEq

/-- Node lookup by identifier. -/
def getNode (g : Graph) (i : Nat) : Option Node :=
  g.nodes.find? (fun n => decide (n.nid = i))

/-- All nodes with a given `stix_type` (pattern `(n:Attack {stix_type: ty})`). -/
def nodesOfType (g : Graph) (ty : String) : List Node :=
  g.nodes.filter (fun n => decide (n.stix_type = ty))

/-- One row per outgoing `ATTACK_REL {rel_type: rt}` edge from `srcN` whose
target node has `stix_type = ty` (parallel edges give one row each). -/
def relTargets (g : Graph) (srcN : Node) (rt ty : String) : List Node :=
  g.rels.filterMap (fun e =>
    if e.rel_type = rt ∧ e.src = srcN.nid then
      match getNode g e.dst with
      | some m => if m.stix_type = ty then some m else none
      | none => none
    else none)

/-- One row per incoming `ATTACK_REL {rel_type: rt}` edge onto `dstN` whose
source node has `stix_type = ty` (parallel edges give one row each). -/
def relSources (g : Graph) (dstN : Node) (rt ty : String) : List Node :=
  g.rels.filterMap (fun e =>
    if e.rel_type = rt ∧ e.dst = dstN.nid then
      match getNode g e.src with
      | some m => if m.stix_type = ty then some m else none
      | none => none
    else none)

/-- Tactic nodes reached from a technique over the structural `IN_TACTIC` edge. -/
def tacticsOf (g : Graph) (t : Node) : List Node :=
  g.inTactic.filterMap (fun p =>
    if p.1 = t.nid then
      match getNode g p.2 with
      | some m => if m.stix_type = "x-mitre-tactic" then some m else none
      | none => none
    else none)

/-- Intrusion-set nodes whose lowercased name contains the lowercased filter
(`WHERE toLower(grp.name) CONTAINS toLower($group)`). -/
def matchedGroups (g : Graph) (f : String) : List Node :=
  (nodesOfType g "intrusion-set").filter (fun n => hasSubL (strLower f) (strLower n.name))

/-- Technique nodes whose lowercased name contains the lowercased filter. -/
def matchedTechs (g : Graph) (f : String) : List Node :=
  (nodesOfType g "attack-pattern").filter (fun n => hasSubL (strLower f) (strLower n.name))

/-- Software (`tool` or `malware`) nodes matched case-insensitively by name. -/
def matchedSoftware (g : Graph) (f : String) : List Node :=
  g.nodes.filter (fun n =>
    decide (n.stix_type = "tool" ∨ n.stix_type = "malware")
      && hasSubL (strLower f) (strLower n.name))

/-- Techniques used by a group: `(grp)-[:ATTACK_REL {rel_type:'uses'}]->(tech)`. -/
def usedTechs (g : Graph) (grp : Node) : List Node :=
  relTargets g grp "uses" "attack-pattern"

/-- The per-row technique bindings of the `C1`/`C2` traversal: one row per
matched group per `uses` edge to a technique. -/
def usedTechRows (g : Graph) (f : String) : List Node :=
  (matchedGroups g f).flatMap (fun grp => usedTechs g grp)

/-- Course-of-action nodes on the mitigation pattern AS THE SOURCE WROTE IT:
`(co:course-of-action)<-[:ATTACK_REL {rel_type:'mitigates'}]-(tech)`, i.e. the
technique is the SOURCE of the `mitigates` edge and the course of action its
target. -/
def coMit (g : Graph) (tech : Node) : List Node :=
  relTargets g tech "mitigates" "course-of-action"

/-- Data-component nodes detecting a technique, one row per `detects` edge:
`(dc:x-mitre-data-component)-[:ATTACK_REL {rel_type:'detects'}]->(tech)`. -/
def dcDetect (g : Graph) (tech : Node) : List Node :=
  relSources g tech "detects" "x-mitre-data-component"

/-- Data-source nodes detecting a technique, one row per `detects` edge. -/
def dsDetect (g : Graph) (tech : Node) : List Node :=
  relSources g tech "detects" "x-mitre-data-source"

/-- `A1_counts`, first query: `MATCH (n:Attack) RETURN count(n) AS nodes`. -/
def A1_counts_nodes (g : Graph) : Nat := g.nodes.length

/-- `A1_counts`, second query: `MATCH ()-[r:ATTACK_REL]->() RETURN count(r)`. -/
def A1_counts_rels (g : Graph) : Nat := g.rels.length

/-- `A2_object_types`: per-`stix_type` node counts, ordered descending. -/
def A2_object_types (g : Graph) : List (String × Nat) :=
  sortBy (fun a b => decide (b.2 ≤ a.2))
    ((cypherGroup (fun n => n.stix_type) g.nodes).map (fun p => (p.1, p.2.length)))

/-- Order on `B1` rows: `ORDER BY tactic, technique` with SQL-style null
(absent tactic) sorting after values. -/
def optStrLe : Option String → Option String → Bool
  | none, none => true
  | none, some _ => false
  | some _, none => true
  | some a, some b => strLe a b

/-- Lexicographic order on `(tactic, technique)` rows of `B1`. -/
def b1RowLe (a b : Option String × String) : Bool :=
  if a.1 = b.1 then strLe a.2 b.2 else optStrLe a.1 b.1

/-- `B1_group_techniques`: techniques used by the matched groups with their
optionally joined tactic, ordered by tactic then technique, `LIMIT 150`. -/
def B1_group_techniques (g : Graph) (f : String) : List (Option String × String) :=
  let rows := (matchedGroups g f).flatMap (fun grp =>
    (usedTechs g grp).flatMap (fun t =>
      (withNull (tacticsOf g t)).map (fun ot => (ot.map (fun tac => tac.shortname), t.name))))
  (sortBy b1RowLe rows).take 150

/-- Undirected neighbour multiset of a node over `ATTACK_REL` edges. -/
def neighborsU (g : Graph) (c : Nat) : List Nat :=
  g.rels.flatMap (fun e =>
    (if e.src = c then [e.dst] else []) ++ (if e.dst = c then [e.src] else []))

/-- All undirected walks of exactly `n` relationships starting at `i`, kept in
reverse order (current endpoint first). -/
def walksR (g : Graph) (i : Nat) : Nat → List (List Nat)
  | 0 => [[i]]
  | n + 1 => (walksR g i n).flatMap (fun w =>
      match w with
      | [] => []
      | c :: _ => (neighborsU g c).map (fun j => j :: w))

/-- Is there an `ATTACK_REL` edge between `x` and `y` in either direction? -/
def adjU (g : Graph) (x y : Nat) : Bool :=
  g.rels.any (fun e => decide ((e.src = x ∧ e.dst = y) ∨ (e.src = y ∧ e.dst = x)))

/-- First undirected walk of minimal length `1..6` from `a` to `b`, as a node
list, modelling `shortestPath((a)-[:ATTACK_REL*..6]-(b))`. -/
def shortestWithin (g : Graph) (a b : Nat) : Option (List Nat) :=
  (List.range 6).findSome? (fun k =>
    ((walksR g a (k + 1)).find? (fun w => decide (w.head? = some b))).map List.reverse)

/-- Is some undirected walk of length `1..6` from `a` to `b` present? -/
def connWithin6 (g : Graph) (a b : Nat) : Bool :=
  (List.range 6).any (fun k => (walksR g a (k + 1)).any (fun w => decide (w.head? = some b)))

/-- `B6_shortest_connection_between_groups`: for every pair of groups matched
by the two filters, the bounded shortest undirected path if one exists. -/
def B6_shortest_connection_between_groups (g : Graph) (f1 f2 : String) : List (List Nat) :=
  (matchedGroups g f1).flatMap (fun a =>
    (matchedGroups g f2).filterMap (fun b => shortestWithin g a.nid b.nid))

/-- The `(tech, co)` rows of `C1_group_mitigations` before aggregation. -/
def C1rows (g : Graph) (f : String) : List (Node × Node) :=
  (usedTechRows g f).flatMap (fun t => (coMit g t).map (fun c => (t, c)))

/-- `C1_group_mitigations`: rows grouped by `tech.name`, mitigations collected
with `collect(DISTINCT co.name)`, `ORDER BY technique LIMIT 50`. -/
def C1_group_mitigations (g : Graph) (f : String) : List (String × List String) :=
  (sortBy (fun a b => strLe a.1 b.1)
    ((cypherGroup (fun r => r.1.name) (C1rows g f)).map
      (fun p => (p.1, dedupFirst (p.2.map (fun r => r.2.name)))))).take 50

/-- The `(tech, optional co)` rows of `C2_group_mitigation_gaps`. -/
def C2rows (g : Graph) (f : String) : List (Node × Option Node) :=
  (usedTechRows g f).flatMap (fun t => (withNull (coMit g t)).map (fun oc => (t, oc)))

/-- `C2_group_mitigation_gaps`: group by the technique node, keep rows whose
non-null mitigation count is zero, return names ordered, `LIMIT 50`. -/
def C2_group_mitigation_gaps (g : Graph) (f : String) : List String :=
  (sortBy strLe
    ((cypherGroup (fun r => r.1) (C2rows g f)).filterMap
      (fun p => if (p.2.filter (fun r => r.2.isSome)).length = 0 then some p.1.name else none))).take 50

/-- The `(tech, optional dc)` rows of `C3_detection_coverage_top`. -/
def C3rows (g : Graph) : List (Node × Option Node) :=
  (nodesOfType g "attack-pattern").flatMap (fun t =>
    (withNull (dcDetect g t)).map (fun od => (t, od)))

/-- `C3_detection_coverage_top`: group by `tech.name`, `count(dc)` counts the
non-null data-component bindings (one per `detects` edge), ordered descending,
row count capped by the caller-supplied limit. -/
def C3_detection_coverage_top (g : Graph) (limit : Nat) : List (String × Nat) :=
  (sortBy (fun a b => decide (b.2 ≤ a.2))
    ((cypherGroup (fun r => r.1.name) (C3rows g)).map
      (fun p => (p.1, (p.2.filter (fun r => r.2.isSome)).length)))).take limit

/-- Cutoff instant of `D5`: `datetime() - duration({days:$days})`. -/
def cutoffOf (g : Graph) (days : Nat) : Int := g.now - (days : Int) * 86400000

/-- Techniques passing the `D5` recency test `t.modified >= datetime() -
duration({days:$days})` (inclusive boundary). -/
def recentTechs (g : Graph) (days : Nat) : List Node :=
  (nodesOfType g "attack-pattern").filter (fun t => decide (cutoffOf g days ≤ t.modified))

/-- `D5_recently_modified`: recent techniques ordered by `modified` descending,
projected to `(name, modified)`, `LIMIT 25`. -/
def D5_recently_modified (g : Graph) (days : Nat) : List (String × Int) :=
  ((sortBy (fun a b => decide (b.modified ≤ a.modified)) (recentTechs g days)).map
    (fun t => (t.name, t.modified))).take 25

/-- A cell value of a materialized result table. -/
inductive Value where
  | null : Value
  | str : String → Value
  | intv : Int → Value
  | natv : Nat → Value
  | list : List Value → Value

/-- A materialized table: pandas `DataFrame` built from a list of records. -/
structure DF where
  cols : List String
  cells : List (List Value)

/-- Pandas `pd.DataFrame(rows)` over a list of key-value records: columns are
the union of the record keys in first-seen order (an empty record list
therefore yields a frame with NO columns), each row is the record's values in
column order with missing keys filled with a null cell. -/
def df_from_result (records : List (List (String × Value))) : DF :=
  let cs := dedupFirst (records.flatMap (fun r => r.map (fun p => p.1)))
  { cols := cs,
    cells := records.map (fun r => cs.map (fun c =>
      match r.find? (fun p => decide (p.1 = c)) with
      | some p => p.2
      | none => Value.null)) }

/-- The records of `C4_detections_for_tech`: matched techniques grouped by
name, with `collect(DISTINCT dc.name)` and `collect(DISTINCT ds.name)` over
the two optional `detects` joins (collect skips null bindings). -/
def C4_detections_records (g : Graph) (f : String) : List (List (String × Value)) :=
  let rows := (matchedTechs g f).flatMap (fun t =>
    (withNull (dcDetect g t)).flatMap (fun od =>
      (withNull (dsDetect g t)).map (fun os => (t, od, os))))
  (cypherGroup (fun r => r.1.name) rows).map (fun p =>
    [("tech.name", Value.str p.1),
     ("data_components", Value.list
       ((dedupFirst ((p.2.filterMap (fun r => r.2.1)).map (fun d => d.name))).map Value.str)),
     ("data_sources", Value.list
       ((dedupFirst ((p.2.filterMap (fun r => r.2.2)).map (fun d => d.name))).map Value.str))])

/-- The materialized table of `C4_detections_for_tech`. -/
def C4_detections_df (g : Graph) (f : String) : DF :=
  df_from_result (C4_detections_records g f)

/-- `E3_software_pivot`: matched software grouped by name; the groups using it
and the techniques it uses are collected distinct from the two optional joins,
the technique list sliced to the first 25. -/
def E3_software_pivot (g : Graph) (f : String) : List (String × List String × List String) :=
  let rows := (matchedSoftware g f).flatMap (fun s =>
    (withNull (relSources g s "uses" "intrusion-set")).flatMap (fun og =>
      (withNull (relTargets g s "uses" "attack-pattern")).map (fun ot => (s, og, ot))))
  (cypherGroup (fun r => r.1.name) rows).map (fun p =>
    (p.1,
     dedupFirst ((p.2.filterMap (fun r => r.2.1)).map (fun n => n.name)),
     (dedupFirst ((p.2.filterMap (fun r => r.2.2)).map (fun n => n.name))).take 25))

/-- Failure kind raised inside a query execution or materialization. -/
structure QueryError where
  msg : String
deriving Repr, DecidableEq

/-- The `AttackKG.query` session discipline: `with self.driver.session() as s`
acquires a session, the body (run + materialization) either returns a table or
raises, and the context manager releases the session on BOTH exit paths.  The
session pool is modelled as a counter of open sessions. -/
def sessionQuery (openSessions : Nat) (body : Except QueryError DF) :
    Except QueryError DF × Nat :=
  let acquired := openSessions + 1
  match body with
  | Except.ok d => (Except.ok d, acquired - 1)
  | Except.error e => (Except.error e, acquired - 1)

/-- Claim C1's own wording of the mitigation traversal: the course-of-action
is the SOURCE of the `mitigates` edge and the technique its target; techniques
with at least one such mitigation, sorted by name, each with its deduplicated
mitigation names, capped at 50 rows. -/
def specC1_claim (g : Graph) (f : String) : List (String × List String) :=
  let techs := usedTechRows g f
  let mitsOf := fun (t : Node) => relSources g t "mitigates" "course-of-action"
  ((sortBy strLe (dedupFirst ((techs.filter (fun t => decide (mitsOf t ≠ []))).map (fun t => t.name)))).map
    (fun n => (n, dedupFirst (((techs.filter (fun t => decide (t.name = n))).flatMap mitsOf).map (fun c => c.name))))).take 50

/-- The amended reading of C1, with the edge direction the source actually
matches (technique → course of action): technique names of the matched groups'
used techniques having at least one outgoing `mitigates` edge, sorted, capped
at 50, each with the deduplicated names of the mitigating courses of action. -/
def specC1_amended (g : Graph) (f : String) : List (String × List String) :=
  let techs := usedTechRows g f
  ((sortBy strLe (dedupFirst ((techs.filter (fun t => decide (coMit g t ≠ []))).map (fun t => t.name)))).map
    (fun n => (n, dedupFirst (((techs.filter (fun t => decide (t.name = n))).flatMap (fun t => coMit g t)).map (fun c => c.name))))).take 50

/-- Claim C2's spec-level description of the kept technique set: names of the
distinct used technique nodes with no mitigation, sorted, capped at 50. -/
def specC2 (g : Graph) (f : String) : List String :=
  (sortBy strLe ((dedupFirst (usedTechRows g f)).filterMap
    (fun t => if coMit g t = [] then some t.name else none))).take 50

/-- Claim C3's own wording: per technique entity, the number of DISTINCT
data-component entities detecting it, ordered descending, capped by the limit. -/
def specC3_claim (g : Graph) (limit : Nat) : List (String × Nat) :=
  (sortBy (fun a b => decide (b.2 ≤ a.2))
    ((nodesOfType g "attack-pattern").map
      (fun t => (t.name, (dedupFirst (dcDetect g t)).length)))).take limit

/-- The amended reading of C3: per technique NAME, the number of `detects`
edges from data-component entities onto techniques bearing that name (parallel
edges each contribute one), ordered descending, capped by the limit. -/
def specC3_amended (g : Graph) (limit : Nat) : List (String × Nat) :=
  (sortBy (fun a b => decide (b.2 ≤ a.2))
    ((dedupFirst ((nodesOfType g "attack-pattern").map (fun t => t.name))).map
      (fun n => (n, (((nodesOfType g "attack-pattern").filter (fun t => decide (t.name = n))).flatMap (fun t => dcDetect g t)).length)))).take limit

/-- Fixture for C1: a group using one technique, with the mitigation edge in
the claim's direction (course of action → technique). -/
def fixtureC1 : Graph :=
  { nodes := [
      { nid := 1, stix_type := "intrusion-set", name := "g1" },
      { nid := 2, stix_type := "attack-pattern", name := "t1" },
      { nid := 3, stix_type := "course-of-action", name := "m1" } ],
    rels := [
      { src := 1, dst := 2, rel_type := "uses" },
      { src := 3, dst := 2, rel_type := "mitigates" } ],
    inTactic := [] }

/-- Fixture for C2: two distinct technique nodes sharing the name `tx`, one
mitigated (source direction: technique → course of action), one not. -/
def fixtureC2 : Graph :=
  { nodes := [
      { nid := 1, stix_type := "intrusion-set", name := "g1" },
      { nid := 2, stix_type := "attack-pattern", name := "tx" },
      { nid := 3, stix_type := "attack-pattern", name := "tx" },
      { nid := 4, stix_type := "course-of-action", name := "m1" } ],
    rels := [
      { src := 1, dst := 2, rel_type := "uses" },
      { src := 1, dst := 3, rel_type := "uses" },
      { src := 2, dst := 4, rel_type := "mitigates" } ],
    inTactic := [] }

/-- Fixture for C3: one technique detected by one data component through TWO
parallel `detects` edges. -/
def fixtureC3 : Graph :=
  { nodes := [
      { nid := 1, stix_type := "attack-pattern", name := "t1" },
      { nid := 2, stix_type := "x-mitre-data-component", name := "d1" } ],
    rels := [
      { src := 2, dst := 1, rel_type := "detects" },
      { src := 2, dst := 1, rel_type := "detects" } ],
    inTactic := [] }

/-- Fixture for C10: two technique nodes named `tx`, one with a detector and
one with none. -/
def fixtureC10 : Graph :=
  { nodes := [
      { nid := 1, stix_type := "attack-pattern", name := "tx" },
      { nid := 2, stix_type := "attack-pattern", name := "tx" },
      { nid := 3, stix_type := "x-mitre-data-component", name := "d1" } ],
    rels := [ { src := 3, dst := 1, rel_type := "detects" } ],
    inTactic := [] }

/-- The empty graph. -/
def noDataGraph : Graph := { nodes := [], rels := [], inTactic := [] }

/-- Fixture for C4: two matched groups with no relationship at all. -/
def fixtureB6 : Graph :=
  { nodes := [
      { nid := 1, stix_type := "intrusion-set", name := "a1" },
      { nid := 2, stix_type := "intrusion-set", name := "b1" } ],
    rels := [], inTactic := [] }

/-- Connected variant of the B6 fixture: one generic edge between the groups. -/
def fixtureB6conn : Graph :=
  { nodes := [
      { nid := 1, stix_type := "intrusion-set", name := "a1" },
      { nid := 2, stix_type := "intrusion-set", name := "b1" } ],
    rels := [ { src := 2, dst := 1, rel_type := "related-to" } ],
    inTactic := [] }

/-- Fixture for C5: one technique whose `modified` equals the cutoff exactly
(`now - 1 day`). -/
def fixtureD5 : Graph :=
  { nodes := [ { nid := 1, stix_type := "attack-pattern", name := "t1", modified := 100 } ],
    rels := [], inTactic := [], now := 86400100 }

/-- Fixture for C6: a group with mixed-case name, a technique it uses, and a
software node. -/
def fixtureCase : Graph :=
  { nodes := [
      { nid := 1, stix_type := "intrusion-set", name := "Apt29" },
      { nid := 2, stix_type := "attack-pattern", name := "t1" },
      { nid := 3, stix_type := "tool", name := "Mimikatz" } ],
    rels := [
      { src := 1, dst := 2, rel_type := "uses" },
      { src := 1, dst := 3, rel_type := "uses" } ],
    inTactic := [] }

/-- Fixture for the C2 witness: a group using one unmitigated technique. -/
def fixtureGap : Graph :=
  { nodes := [
      { nid := 1, stix_type := "intrusion-set", name := "g1" },
      { nid := 2, stix_type := "attack-pattern", name := "t1" } ],
    rels := [ { src := 1, dst := 2, rel_type := "uses" } ],
    inTactic := [] }

/-- Fixture for the C10 witness: a single technique with no detector. -/
def fixtureSolo : Graph :=
  { nodes := [ { nid := 1, stix_type := "attack-pattern", name := "t1" } ],
    rels := [], inTactic := [] }


theorem mem_dedupFirst [DecidableEq α] (a : α) (l : List α) :
    a ∈ dedupFirst l ↔ a ∈ l := by
  induction l with
  | nil => simp [dedupFirst]
  | cons x xs ih =>
    by_cases hax : a = x
    · subst hax; simp [dedupFirst]
    · simp [dedupFirst, List.mem_filter, hax, ih]

theorem nodup_dedupFirst [DecidableEq α] (l : List α) : (dedupFirst l).Nodup := by
  induction l with
  | nil => simp [dedupFirst]
  | cons x xs ih =>
    simp only [dedupFirst, List.nodup_cons]
    refine ⟨fun hmem => ?_, ih.filter _⟩
    have := (List.mem_filter.mp hmem).2
    simp at this

theorem length_dedupFirst_le [DecidableEq α] (l : List α) :
    (dedupFirst l).length ≤ l.length := by
  induction l with
  | nil => simp [dedupFirst]
  | cons x xs ih =>
    simp only [dedupFirst, List.length_cons]
    have := List.length_filter_le (fun b => decide (b ≠ x)) (dedupFirst xs)
    omega

theorem dedupFirst_filter_const [DecidableEq α] (v : α) :
    ∀ (xs rest : List α), (∀ x ∈ xs, x = v) →
      (dedupFirst (xs ++ rest)).filter (fun b => decide (b ≠ v))
        = (dedupFirst rest).filter (fun b => decide (b ≠ v)) := by
  intro xs
  induction xs with
  | nil => intro rest _; rfl
  | cons x xs ih =>
    intro rest hall
    have hx : x = v := hall x (by simp)
    subst hx
    simp only [List.cons_append, dedupFirst, List.filter_cons]
    have hvv : (decide (x ≠ x)) = false := by simp
    simp only [hvv, Bool.false_eq_true, if_false]
    rw [List.filter_filter]
    have hfun : (fun b => decide (b ≠ x) && decide (b ≠ x)) = fun b => decide (b ≠ x) := by
      funext b; exact Bool.and_self _
    rw [hfun]
    exact ih rest (fun y hy => hall y (List.mem_cons_of_mem x hy))

theorem dedupFirst_map_flatMap [DecidableEq κ] [DecidableEq β] (k : β → κ) (k' : α → κ) :
    ∀ (l : List α) (h : α → List β),
      (∀ a ∈ l, ∀ b ∈ h a, k b = k' a) →
      dedupFirst ((l.flatMap h).map k)
        = dedupFirst ((l.filter (fun a => decide (h a ≠ []))).map k') := by
  intro l
  induction l with
  | nil => intro h _; rfl
  | cons a tl ih =>
    intro h hk
    have htl : ∀ x ∈ tl, ∀ b ∈ h x, k b = k' x :=
      fun x hx => hk x (List.mem_cons_of_mem a hx)
    simp only [List.flatMap_cons, List.map_append, List.filter_cons]
    by_cases hnil : h a = []
    · have hdec : (decide (h a ≠ [])) = false := by simp [hnil]
      rw [hdec]
      simp only [hnil, List.map_nil, List.nil_append, Bool.false_eq_true, if_false]
      exact ih h htl
    · obtain ⟨c, cs, hcons⟩ := List.exists_cons_of_ne_nil hnil
      have hkc : k c = k' a := hk a (List.mem_cons_self a tl) c (by rw [hcons]; simp)
      have hcs : ∀ x ∈ cs.map k, x = k' a := by
        intro x hx
        obtain ⟨b, hb, rfl⟩ := List.mem_map.mp hx
        exact hk a (List.mem_cons_self a tl) b (by rw [hcons]; simp [hb])
      rw [hcons]
      simp only [List.map_cons, hkc, List.cons_append, dedupFirst, List.append_eq]
      rw [dedupFirst_filter_const (k' a) (cs.map k) _ hcs]
      rw [ih h htl]

theorem filter_key_flatMap [DecidableEq κ] (k : β → κ) (k' : α → κ) (k₀ : κ) :
    ∀ (l : List α) (h : α → List β),
      (∀ a ∈ l, ∀ b ∈ h a, k b = k' a) →
      (l.flatMap h).filter (fun b => decide (k b = k₀))
        = (l.filter (fun a => decide (k' a = k₀))).flatMap h := by
  intro l
  induction l with
  | nil => intro h _; rfl
  | cons a tl ih =>
    intro h hk
    have htl : ∀ x ∈ tl, ∀ b ∈ h x, k b = k' x :=
      fun x hx => hk x (List.mem_cons_of_mem a hx)
    simp only [List.flatMap_cons, List.filter_append, List.filter_cons]
    by_cases hka : k' a = k₀
    · have : (decide (k' a = k₀)) = true := by simp [hka]
      rw [this]
      simp only [if_true, List.flatMap_cons]
      rw [List.filter_eq_self.mpr, ih h htl]
      intro b hb
      simp [hk a (List.mem_cons_self a tl) b hb, hka]
    · have : (decide (k' a = k₀)) = false := by simp [hka]
      rw [this]
      simp only [Bool.false_eq_true, if_false]
      rw [List.filter_eq_nil_iff.mpr, List.nil_append, ih h htl]
      intro b hb
      simp [hk a (List.mem_cons_self a tl) b hb, hka]

theorem withNull_ne_nil (l : List α) : withNull l ≠ [] := by
  cases l <;> simp [withNull]

theorem withNull_pair_filter (t : γ) (cs : List α) :
    ((withNull cs).map (fun oc => (t, oc))).filter (fun r => r.2.isSome)
      = cs.map (fun c => (t, some c)) := by
  cases cs with
  | nil => rfl
  | cons c cs' =>
    simp only [withNull, List.map_map]
    rw [List.filter_eq_self.mpr]
    · rfl
    · intro r hr
      obtain ⟨x, _, rfl⟩ := List.mem_map.mp hr
      rfl

theorem length_insertBy (le : α → α → Bool) (a : α) :
    ∀ l : List α, (insertBy le a l).length = l.length + 1 := by
  intro l
  induction l with
  | nil => rfl
  | cons b bs ih =>
    simp only [insertBy]
    split
    · rfl
    · simp [ih]

theorem length_sortBy (le : α → α → Bool) :
    ∀ l : List α, (sortBy le l).length = l.length := by
  intro l
  induction l with
  | nil => rfl
  | cons a as ih => simp [sortBy, length_insertBy, ih]

theorem mem_insertBy (le : α → α → Bool) (a x : α) :
    ∀ l : List α, x ∈ insertBy le a l ↔ x = a ∨ x ∈ l := by
  intro l
  induction l with
  | nil => simp [insertBy]
  | cons b bs ih =>
    simp only [insertBy]
    split
    · simp only [List.mem_cons]
    · simp only [List.mem_cons, ih]
      tauto

theorem mem_sortBy (le : α → α → Bool) (x : α) :
    ∀ l : List α, x ∈ sortBy le l ↔ x ∈ l := by
  intro l
  induction l with
  | nil => simp [sortBy]
  | cons a as ih =>
    simp only [sortBy, mem_insertBy, List.mem_cons, ih]

theorem perm_insertBy (le : α → α → Bool) (a : α) :
    ∀ l : List α, (insertBy le a l).Perm (a :: l) := by
  intro l
  induction l with
  | nil => exact List.Perm.refl _
  | cons b bs ih =>
    simp only [insertBy]
    split
    · exact List.Perm.refl _
    · exact (ih.cons b).trans (List.Perm.swap a b bs)

theorem perm_sortBy (le : α → α → Bool) :
    ∀ l : List α, (sortBy le l).Perm l := by
  intro l
  induction l with
  | nil => exact List.Perm.refl _
  | cons a as ih =>
    exact (perm_insertBy le a (sortBy le as)).trans (ih.cons a)

theorem pairwise_insertBy (le : α → α → Bool)
    (htr : ∀ a b c, le a b = true → le b c = true → le a c = true)
    (hto : ∀ a b, le a b = true ∨ le b a = true) (a : α) :
    ∀ l : List α, l.Pairwise (fun x y => le x y = true) →
      (insertBy le a l).Pairwise (fun x y => le x y = true) := by
  intro l
  induction l with
  | nil => intro _; simp [insertBy]
  | cons b bs ih =>
    intro hp
    have hpb := List.pairwise_cons.mp hp
    simp only [insertBy]
    split
    case isTrue hab =>
      refine List.pairwise_cons.mpr ⟨?_, hp⟩
      intro y hy
      rcases List.mem_cons.mp hy with rfl | hybs
      · exact hab
      · exact htr a b y hab (hpb.1 y hybs)
    case isFalse hab =>
      refine List.pairwise_cons.mpr ⟨?_, ih hpb.2⟩
      intro y hy
      rcases (mem_insertBy le a y bs).mp hy with hya | hybs
      · subst hya
        rcases hto y b with h | h
        · exact absurd h hab
        · exact h
      · exact hpb.1 y hybs

theorem pairwise_sortBy (le : α → α → Bool)
    (htr : ∀ a b c, le a b = true → le b c = true → le a c = true)
    (hto : ∀ a b, le a b = true ∨ le b a = true) :
    ∀ l : List α, (sortBy le l).Pairwise (fun x y => le x y = true) := by
  intro l
  induction l with
  | nil => simp [sortBy]
  | cons a as ih => exact pairwise_insertBy le htr hto a (sortBy le as) ih

theorem insertBy_map_key (le : κ → κ → Bool) (v : κ → β) (a : κ) :
    ∀ ks : List κ,
      insertBy (fun x y => le x.1 y.1) (a, v a) (ks.map (fun k => (k, v k)))
        = (insertBy le a ks).map (fun k => (k, v k)) := by
  intro ks
  induction ks with
  | nil => rfl
  | cons b bs ih =>
    simp only [List.map_cons, insertBy]
    split
    case isTrue hab => simp [List.map_cons]
    case isFalse hab => simp [List.map_cons, ih]

theorem sortBy_map_key (le : κ → κ → Bool) (v : κ → β) :
    ∀ ks : List κ,
      sortBy (fun x y => le x.1 y.1) (ks.map (fun k => (k, v k)))
        = (sortBy le ks).map (fun k => (k, v k)) := by
  intro ks
  induction ks with
  | nil => rfl
  | cons a as ih =>
    simp only [List.map_cons, sortBy, ih, insertBy_map_key]

theorem C1_eq_spec (g : Graph) (f : String) :
    C1_group_mitigations g f = specC1_amended g f := by
  have hk : ∀ t ∈ usedTechRows g f, ∀ r ∈ (coMit g t).map (fun c => (t, c)),
      (r.1).name = t.name := by
    intro t ht r hr
    obtain ⟨c, hc, rfl⟩ := List.mem_map.mp hr
    rfl
  have hrows : C1rows g f
      = (usedTechRows g f).flatMap (fun t => (coMit g t).map (fun c => (t, c))) := rfl
  have hfc : (usedTechRows g f).filter (fun t => decide ((coMit g t).map (fun c => (t, c)) ≠ []))
      = (usedTechRows g f).filter (fun t => decide (coMit g t ≠ [])) :=
    List.filter_congr (fun t _ => by by_cases h : coMit g t = [] <;> simp [h])
  have hkeys : dedupFirst ((C1rows g f).map (fun r => r.1.name))
      = dedupFirst (((usedTechRows g f).filter (fun t => decide (coMit g t ≠ []))).map (fun t => t.name)) := by
    rw [hrows,
      dedupFirst_map_flatMap (fun r : Node × Node => r.1.name) (fun t : Node => t.name) _ _ hk,
      hfc]
  have hval : ∀ k : String,
      dedupFirst (((C1rows g f).filter (fun r => decide (r.1.name = k))).map (fun r => r.2.name))
        = dedupFirst ((((usedTechRows g f).filter (fun t => decide (t.name = k))).flatMap (fun t => coMit g t)).map (fun c => c.name)) := by
    intro k
    rw [hrows,
      filter_key_flatMap (fun r : Node × Node => r.1.name) (fun t : Node => t.name) k _ _ hk,
      List.map_flatMap, List.map_flatMap]
    apply congrArg
    congr 1
    funext t
    rw [List.map_map]
    rfl
  unfold C1_group_mitigations specC1_amended cypherGroup
  rw [List.map_map]
  refine congrArg (List.take 50) ?_
  refine Eq.trans ?_ (sortBy_map_key strLe _ _)
  refine congrArg (sortBy (fun a b : String × List String => strLe a.1 b.1)) ?_
  rw [hkeys]
  exact List.map_congr_left (fun k _ => congrArg (Prod.mk k) (hval k))

theorem filterMap_congr_mem (f g : α → Option β) :
    ∀ l : List α, (∀ a ∈ l, f a = g a) → l.filterMap f = l.filterMap g := by
  intro l
  induction l with
  | nil => intro _; rfl
  | cons a as ih =>
    intro h
    simp only [List.filterMap_cons, h a (List.mem_cons_self a as),
      ih (fun x hx => h x (List.mem_cons_of_mem a hx))]

theorem C3_eq_spec (g : Graph) (limit : Nat) :
    C3_detection_coverage_top g limit = specC3_amended g limit := by
  have hk : ∀ t ∈ nodesOfType g "attack-pattern",
      ∀ r ∈ (withNull (dcDetect g t)).map (fun od => (t, od)), (r.1).name = t.name := by
    intro t ht r hr
    obtain ⟨od, hod, rfl⟩ := List.mem_map.mp hr
    rfl
  have hrows : C3rows g
      = (nodesOfType g "attack-pattern").flatMap
          (fun t => (withNull (dcDetect g t)).map (fun od => (t, od))) := rfl
  have hfc : (nodesOfType g "attack-pattern").filter
        (fun t => decide ((withNull (dcDetect g t)).map (fun od => (t, od)) ≠ []))
      = nodesOfType g "attack-pattern" := by
    apply List.filter_eq_self.mpr
    intro t ht
    simp [List.map_eq_nil_iff, withNull_ne_nil]
  have hkeys : dedupFirst ((C3rows g).map (fun r => r.1.name))
      = dedupFirst ((nodesOfType g "attack-pattern").map (fun t => t.name)) := by
    rw [hrows,
      dedupFirst_map_flatMap (fun r : Node × Option Node => r.1.name) (fun t : Node => t.name) _ _ hk,
      hfc]
  have hval : ∀ k : String,
      (((C3rows g).filter (fun r => decide (r.1.name = k))).filter (fun r => r.2.isSome)).length
        = (((nodesOfType g "attack-pattern").filter (fun t => decide (t.name = k))).flatMap
            (fun t => dcDetect g t)).length := by
    intro k
    rw [hrows,
      filter_key_flatMap (fun r : Node × Option Node => r.1.name) (fun t : Node => t.name) k _ _ hk,
      List.filter_flatMap, List.length_flatMap, List.length_flatMap]
    apply congrArg
    apply List.map_congr_left
    intro t ht
    simp only [Function.comp]
    rw [withNull_pair_filter t (dcDetect g t), List.length_map]
  unfold C3_detection_coverage_top specC3_amended cypherGroup
  rw [List.map_map]
  refine congrArg (List.take limit) ?_
  refine congrArg (sortBy (fun a b : String × Nat => decide (b.2 ≤ a.2))) ?_
  rw [hkeys]
  exact List.map_congr_left (fun k _ => congrArg (Prod.mk k) (hval k))

theorem C2_eq_spec (g : Graph) (f : String) :
    C2_group_mitigation_gaps g f = specC2 g f := by
  have hk : ∀ t ∈ usedTechRows g f,
      ∀ r ∈ (withNull (coMit g t)).map (fun oc => (t, oc)), r.1 = t := by
    intro t ht r hr
    obtain ⟨oc, hoc, rfl⟩ := List.mem_map.mp hr
    rfl
  have hrows : C2rows g f
      = (usedTechRows g f).flatMap
          (fun t => (withNull (coMit g t)).map (fun oc => (t, oc))) := rfl
  have hfc : (usedTechRows g f).filter
        (fun t => decide ((withNull (coMit g t)).map (fun oc => (t, oc)) ≠ []))
      = usedTechRows g f := by
    apply List.filter_eq_self.mpr
    intro t ht
    simp [List.map_eq_nil_iff, withNull_ne_nil]
  have hkeys : dedupFirst ((C2rows g f).map (fun r => r.1)) = dedupFirst (usedTechRows g f) := by
    rw [hrows,
      dedupFirst_map_flatMap (fun r : Node × Option Node => r.1) (fun t : Node => t) _ _ hk,
      hfc]
    exact congrArg dedupFirst (List.map_id' _)
  have hcond : ∀ t ∈ dedupFirst (usedTechRows g f),
      ((((C2rows g f).filter (fun r => decide (r.1 = t))).filter (fun r => r.2.isSome)).length = 0
        ↔ coMit g t = []) := by
    intro t ht
    rw [hrows,
      filter_key_flatMap (fun r : Node × Option Node => r.1) (fun t : Node => t) t _ _ hk,
      List.filter_flatMap]
    constructor
    · intro h0
      have htmem : t ∈ (usedTechRows g f).filter (fun a => decide (a = t)) := by
        simp [List.mem_filter, (mem_dedupFirst t _).mp ht]
      have hnil := List.length_eq_zero.mp h0
      have hb := List.flatMap_eq_nil_iff.mp hnil t htmem
      rw [withNull_pair_filter] at hb
      exact List.map_eq_nil_iff.mp hb
    · intro hc
      apply List.length_eq_zero.mpr
      apply List.flatMap_eq_nil_iff.mpr
      intro a ha
      have hat : a = t := by simpa using (List.mem_filter.mp ha).2
      subst hat
      rw [withNull_pair_filter, hc]
      rfl
  unfold C2_group_mitigation_gaps specC2 cypherGroup
  rw [List.filterMap_map]
  refine congrArg (List.take 50) ?_
  refine congrArg (sortBy strLe) ?_
  rw [hkeys]
  apply filterMap_congr_mem
  intro t ht
  by_cases h : coMit g t = []
  · simp only [Function.comp]
    rw [if_pos ((hcond t ht).mpr h), if_pos h]
  · simp only [Function.comp]
    rw [if_neg (fun h0 => h ((hcond t ht).mp h0)), if_neg h]

theorem sum_map_add (A B : κ → Nat) :
    ∀ ks : List κ, (ks.map (fun k => A k + B k)).sum = (ks.map A).sum + (ks.map B).sum := by
  intro ks
  induction ks with
  | nil => rfl
  | cons k ks ih =>
    simp only [List.map_cons, List.sum_cons, ih]
    omega

theorem sum_indicator [DecidableEq κ] (k₀ : κ) :
    ∀ ks : List κ, ks.Nodup → k₀ ∈ ks →
      (ks.map (fun k => if k₀ = k then 1 else 0)).sum = 1 := by
  intro ks
  induction ks with
  | nil => intro _ h; simp at h
  | cons k ks ih =>
    intro hnd hmem
    have hnd' := List.nodup_cons.mp hnd
    by_cases hk : k₀ = k
    · subst hk
      simp only [List.map_cons, List.sum_cons]
      have hz : (ks.map (fun k => if k₀ = k then 1 else 0)).sum = 0 := by
        apply List.sum_eq_zero
        intro x hx
        obtain ⟨y, hy, rfl⟩ := List.mem_map.mp hx
        have : ¬ k₀ = y := fun h => hnd'.1 (h ▸ hy)
        simp [this]
      simp [hz]
    · have hmem' : k₀ ∈ ks := by
        rcases List.mem_cons.mp hmem with h | h
        · exact absurd h hk
        · exact h
      simp only [List.map_cons, List.sum_cons, if_neg hk, ih hnd'.2 hmem']

theorem sum_filter_lengths [DecidableEq κ] (key : α → κ) :
    ∀ (l : List α) (ks : List κ), ks.Nodup → (∀ a ∈ l, key a ∈ ks) →
      (ks.map (fun k => (l.filter (fun a => decide (key a = k))).length)).sum = l.length := by
  intro l
  induction l with
  | nil =>
    intro ks _ _
    apply List.sum_eq_zero
    intro x hx
    obtain ⟨y, hy, rfl⟩ := List.mem_map.mp hx
    simp
  | cons a tl ih =>
    intro ks hnd hc
    have hpt : ∀ k, ((a :: tl).filter (fun x => decide (key x = k))).length
        = (tl.filter (fun x => decide (key x = k))).length + (if key a = k then 1 else 0) := by
      intro k
      by_cases h : key a = k
      · simp [List.filter_cons, h]
      · simp [List.filter_cons, h]
    rw [List.map_congr_left (fun k _ => hpt k), sum_map_add,
      ih ks hnd (fun x hx => hc x (List.mem_cons_of_mem a hx)),
      sum_indicator (key a) ks hnd (hc a (List.mem_cons_self a tl))]
    simp

theorem mem_neighborsU_adj (g : Graph) (c j : Nat) :
    j ∈ neighborsU g c → adjU g c j = true := by
  intro h
  simp only [neighborsU, List.mem_flatMap] at h
  obtain ⟨e, he, hj⟩ := h
  rcases List.mem_append.mp hj with h1 | h1
  · by_cases hsrc : e.src = c
    · simp only [if_pos hsrc, List.mem_singleton] at h1
      subst h1
      simp only [adjU, List.any_eq_true]
      exact ⟨e, he, by simp [hsrc]⟩
    · simp [if_neg hsrc] at h1
  · by_cases hdst : e.dst = c
    · simp only [if_pos hdst, List.mem_singleton] at h1
      subst h1
      simp only [adjU, List.any_eq_true]
      exact ⟨e, he, by simp [hdst]⟩
    · simp [if_neg hdst] at h1

theorem adjU_symm (g : Graph) (x y : Nat) : adjU g x y = adjU g y x := by
  simp only [adjU]
  apply Bool.eq_iff_iff.mpr
  simp only [List.any_eq_true, decide_eq_true_eq]
  constructor
  · rintro ⟨e, he, h⟩
    exact ⟨e, he, by tauto⟩
  · rintro ⟨e, he, h⟩
    exact ⟨e, he, by tauto⟩

theorem walksR_spec (g : Graph) (i : Nat) :
    ∀ (n : Nat) (w : List Nat), w ∈ walksR g i n →
      w.length = n + 1 ∧ w.getLast? = some i
        ∧ List.Chain' (fun x y => adjU g x y = true) w := by
  intro n
  induction n with
  | zero =>
    intro w hw
    simp only [walksR, List.mem_singleton] at hw
    subst hw
    exact ⟨rfl, rfl, List.chain'_singleton i⟩
  | succ n ih =>
    intro w hw
    simp only [walksR, List.mem_flatMap] at hw
    obtain ⟨w', hw', hmem⟩ := hw
    match w', hw', hmem with
    | [], hw', hmem => simp at hmem
    | c :: rest, hw', hmem =>
      obtain ⟨j, hj, rfl⟩ := List.mem_map.mp hmem
      obtain ⟨hlen, hlast, hchain⟩ := ih (c :: rest) hw'
      refine ⟨by simp only [List.length_cons] at hlen ⊢; omega, ?_, ?_⟩
      · rw [List.getLast?_cons_cons]
        exact hlast
      · refine List.chain'_cons.mpr ⟨?_, hchain⟩
        rw [adjU_symm]
        exact mem_neighborsU_adj g c j hj

theorem shortestWithin_some (g : Graph) (a b : Nat) (p : List Nat)
    (h : shortestWithin g a b = some p) :
    ∃ k, k < 6 ∧ ∃ w ∈ walksR g a (k + 1), w.head? = some b ∧ p = w.reverse := by
  unfold shortestWithin at h
  obtain ⟨k, hk, hfk⟩ := List.exists_of_findSome?_eq_some h
  obtain ⟨w, hfind, hrev⟩ := Option.map_eq_some'.mp hfk
  refine ⟨k, List.mem_range.mp hk, w, List.mem_of_find?_eq_some hfind, ?_, hrev.symm⟩
  have := List.find?_some hfind
  simpa using this

theorem shortestWithin_none (g : Graph) (a b : Nat)
    (h : connWithin6 g a b = false) : shortestWithin g a b = none := by
  unfold shortestWithin
  apply List.findSome?_eq_none_iff.mpr
  intro k hk
  apply Option.map_eq_none'.mpr
  apply List.find?_eq_none.mpr
  intro w hw
  simp only [connWithin6, List.any_eq_false] at h
  have h2 := h k hk
  have h3 : (walksR g a (k + 1)).any (fun w => decide (w.head? = some b)) = false := by
    cases hcase : (walksR g a (k + 1)).any (fun w => decide (w.head? = some b))
    · rfl
    · exact absurd hcase h2
  have h4 := List.any_eq_false.mp h3 w hw
  simpa using h4

theorem dedupFirst_append [DecidableEq α] (xs ys : List α) :
    dedupFirst (xs ++ ys)
      = dedupFirst xs ++ (dedupFirst ys).filter (fun y => decide (y ∉ xs)) := by
  induction xs with
  | nil =>
    rw [List.nil_append, show dedupFirst ([] : List α) = [] from rfl, List.nil_append]
    exact (List.filter_eq_self.mpr (fun y hy => by simp)).symm
  | cons x xs ih =>
    have hstep : (x :: xs) ++ ys = x :: (xs ++ ys) := rfl
    rw [hstep,
      show dedupFirst (x :: (xs ++ ys))
        = x :: (dedupFirst (xs ++ ys)).filter (fun b => decide (b ≠ x)) from rfl,
      ih,
      show dedupFirst (x :: xs)
        = x :: (dedupFirst xs).filter (fun b => decide (b ≠ x)) from rfl,
      List.filter_append, List.filter_filter, List.cons_append]
    congr 1
    congr 1
    apply List.filter_congr
    intro y hy
    by_cases h1 : y = x
    · subst h1; simp
    · by_cases h2 : y ∈ xs <;> simp [h1, h2]

theorem dedupFirst_append_subset [DecidableEq α] (xs ys : List α)
    (h : ∀ y ∈ ys, y ∈ xs) : dedupFirst (xs ++ ys) = dedupFirst xs := by
  rw [dedupFirst_append]
  have hnil : (dedupFirst ys).filter (fun y => decide (y ∉ xs)) = [] := by
    apply List.filter_eq_nil_iff.mpr
    intro y hy
    simp [h y ((mem_dedupFirst y ys).mp hy)]
  rw [hnil, List.append_nil]

theorem C4_records_keys (g : Graph) (f : String) :
    (C4_detections_records g f).flatMap (fun r => r.map (fun p => p.1))
      = (C4_detections_records g f).flatMap
          (fun _ => ["tech.name", "data_components", "data_sources"]) := by
  unfold C4_detections_records
  rw [List.flatMap_map, List.flatMap_map]
  rfl

theorem matchedGroups_lower (g : Graph) {s₁ s₂ : String} (h : strLower s₁ = strLower s₂) :
    matchedGroups g s₁ = matchedGroups g s₂ := by
  unfold matchedGroups
  rw [h]

theorem matchedTechs_lower (g : Graph) {s₁ s₂ : String} (h : strLower s₁ = strLower s₂) :
    matchedTechs g s₁ = matchedTechs g s₂ := by
  unfold matchedTechs
  rw [h]

theorem matchedSoftware_lower (g : Graph) {s₁ s₂ : String} (h : strLower s₁ = strLower s₂) :
    matchedSoftware g s₁ = matchedSoftware g s₂ := by
  unfold matchedSoftware
  rw [h]

/-- C1 counterexample: on a graph whose `mitigates` edge runs from the course
of action to the technique — the direction claim C1 asserts — the embedded
query returns nothing, so the query does not implement the claimed direction. -/
theorem c1_direction_cex :
    C1_group_mitigations fixtureC1 "g1" ≠ specC1_claim fixtureC1 "g1" := by decide

/-- C1 (amended): `C1_group_mitigations` returns, for the matched groups' used
techniques having at least one OUTGOING `mitigates` edge to a course of action
(the technique is the SOURCE of the relation, not its target), one row per
technique name with the deduplicated mitigation names, ordered by technique
name and capped at 50 rows. -/
theorem c1_amended_thm (g : Graph) (f : String) :
    C1_group_mitigations g f = specC1_amended g f := C1_eq_spec g f

/-- C3 counterexample: two parallel `detects` edges from one data component
are counted twice by the embedded query (`count(dc)`, not
`count(DISTINCT dc)`), refuting the claimed distinct count. -/
theorem c3_distinct_cex :
    C3_detection_coverage_top fixtureC3 25 ≠ specC3_claim fixtureC3 25 := by decide

/-- C3 (amended): `C3_detection_coverage_top` returns, per technique NAME, the
count of `detects` EDGES from data-component entities onto techniques bearing
that name (parallel edges each contribute one), ordered descending by count
and capped at the caller-supplied limit. -/
theorem c3_amended_thm (g : Graph) (limit : Nat) :
    C3_detection_coverage_top g limit = specC3_amended g limit := C3_eq_spec g limit

/-- C7: the per-`stix_type` counts of `A2_object_types` sum to the total node
count of `A1_counts`, on every graph state. -/
theorem c7_counts_sum_thm (g : Graph) :
    ((A2_object_types g).map (fun p => p.2)).sum = A1_counts_nodes g := by
  unfold A2_object_types A1_counts_nodes
  have hperm := (perm_sortBy (fun a b : String × Nat => decide (b.2 ≤ a.2))
    ((cypherGroup (fun n : Node => n.stix_type) g.nodes).map
      (fun p => (p.1, p.2.length)))).map (fun p : String × Nat => p.2)
  rw [hperm.sum_eq]
  unfold cypherGroup
  rw [List.map_map, List.map_map]
  have hsum := sum_filter_lengths (fun n : Node => n.stix_type) g.nodes
    (dedupFirst (g.nodes.map (fun n => n.stix_type))) (nodup_dedupFirst _)
    (fun a ha => (mem_dedupFirst _ _).mpr (List.mem_map_of_mem _ ha))
  exact Eq.trans (congrArg List.sum (List.map_congr_left (fun k _ => rfl))) hsum

/-- C9: the session discipline of `AttackKG.query` (a Python `with` block,
which guarantees `__exit__` on success and on exception) releases the acquired
session on every exit path, propagates the body's outcome verbatim, and leaves
the open-session count unchanged across any sequence of calls. -/
theorem c9_session_thm (openSessions : Nat) (body : Except QueryError DF) :
    (sessionQuery openSessions body).2 = openSessions
    ∧ (sessionQuery openSessions body).1 = body
    ∧ ∀ bodies : List (Except QueryError DF),
        bodies.foldl (fun s b => (sessionQuery s b).2) openSessions = openSessions := by
  refine ⟨?_, ?_, ?_⟩
  · cases body <;> rfl
  · cases body <;> rfl
  · intro bodies
    induction bodies generalizing openSessions with
    | nil => rfl
    | cons b bs ih =>
      simp only [List.foldl_cons]
      rw [show (sessionQuery openSessions b).2 = openSessions by cases b <;> rfl]
      exact ih _

/-- C6: every embedded filter-taking query first lowercases its string
parameters, so any two filters with the same lowercasing (in particular any
case variant of the same string) yield identical results, for every query in
this development that takes a filter. -/
theorem c6_case_insensitive_thm (g : Graph) (s₁ s₂ t : String)
    (h : strLower s₁ = strLower s₂) :
    B1_group_techniques g s₁ = B1_group_techniques g s₂
    ∧ E3_software_pivot g s₁ = E3_software_pivot g s₂
    ∧ C1_group_mitigations g s₁ = C1_group_mitigations g s₂
    ∧ C2_group_mitigation_gaps g s₁ = C2_group_mitigation_gaps g s₂
    ∧ C4_detections_df g s₁ = C4_detections_df g s₂
    ∧ B6_shortest_connection_between_groups g s₁ t
        = B6_shortest_connection_between_groups g s₂ t
    ∧ B6_shortest_connection_between_groups g t s₁
        = B6_shortest_connection_between_groups g t s₂ := by
  have hg := matchedGroups_lower g h
  have ht := matchedTechs_lower g h
  have hs := matchedSoftware_lower g h
  refine ⟨?_, ?_, ?_, ?_, ?_, ?_, ?_⟩
  · unfold B1_group_techniques; rw [hg]
  · unfold E3_software_pivot; rw [hs]
  · unfold C1_group_mitigations C1rows usedTechRows; rw [hg]
  · unfold C2_group_mitigation_gaps C2rows usedTechRows; rw [hg]
  · unfold C4_detections_df C4_detections_records; rw [ht]
  · unfold B6_shortest_connection_between_groups; rw [hg]
  · unfold B6_shortest_connection_between_groups; rw [hg]

/-- C6 witness: the `B1` result for the mixed-case group name is identical
under the upper- and lower-case spellings of the filter. -/
theorem c6_case_insensitive_witness :
    B1_group_techniques fixtureCase "APT29" = B1_group_techniques fixtureCase "apt29" :=
  (c6_case_insensitive_thm fixtureCase "APT29" "apt29" "m" (by decide)).1

/-- C4: every path returned by `B6_shortest_connection_between_groups` uses
between 1 and 6 generic relations, consecutive path nodes are connected by an
`ATTACK_REL` edge in EITHER direction (the search is undirected), and when no
undirected walk of at most 6 relations links any matched pair the result is
the empty table (the embedded query is total, so this is not an error). -/
theorem c4_shortest_path_thm (g : Graph) (f1 f2 : String) :
    (∀ p ∈ B6_shortest_connection_between_groups g f1 f2,
        2 ≤ p.length ∧ p.length ≤ 7
          ∧ List.Chain' (fun x y => adjU g x y = true) p)
    ∧ ((∀ a ∈ matchedGroups g f1, ∀ b ∈ matchedGroups g f2,
          connWithin6 g a.nid b.nid = false) →
        B6_shortest_connection_between_groups g f1 f2 = []) := by
  constructor
  · intro p hp
    simp only [B6_shortest_connection_between_groups, List.mem_flatMap,
      List.mem_filterMap] at hp
    obtain ⟨a, ha, b, hb, hsp⟩ := hp
    obtain ⟨k, hk6, w, hw, hhead, rfl⟩ := shortestWithin_some g a.nid b.nid _ hsp
    obtain ⟨hlen, hlast, hchain⟩ := walksR_spec g a.nid (k + 1) w hw
    refine ⟨?_, ?_, ?_⟩
    · rw [List.length_reverse, hlen]; omega
    · rw [List.length_reverse, hlen]; omega
    · rw [List.chain'_reverse]
      refine hchain.imp (fun x y hxy => ?_)
      show adjU g y x = true
      rw [adjU_symm g y x]
      exact hxy
  · intro hnc
    unfold B6_shortest_connection_between_groups
    apply List.flatMap_eq_nil_iff.mpr
    intro a ha
    apply List.filterMap_eq_nil_iff.mpr
    intro b hb
    exact shortestWithin_none g a.nid b.nid (hnc a ha b hb)

/-- C4 witness: two groups with no relationship at all produce the empty
result, not an error. -/
theorem c4_shortest_path_witness :
    B6_shortest_connection_between_groups fixtureB6 "a1" "b1" = [] :=
  (c4_shortest_path_thm fixtureB6 "a1" "b1").2 (by decide)

/-- C5: `D5_recently_modified` returns at most 25 rows, ordered by `modified`
descending; every returned row is a technique with `modified` at or after the
inclusive cutoff `now - days` (nothing strictly older appears); and whenever
the eligible set fits the cap, EVERY technique with `modified >= cutoff` —
including one exactly at the cutoff — appears. -/
theorem c5_recent_thm (g : Graph) (days : Nat) :
    (D5_recently_modified g days).length ≤ 25
    ∧ List.Pairwise (fun a b : String × Int => b.2 ≤ a.2) (D5_recently_modified g days)
    ∧ (∀ r ∈ D5_recently_modified g days,
        cutoffOf g days ≤ r.2
          ∧ ∃ t ∈ g.nodes, t.stix_type = "attack-pattern" ∧ t.name = r.1 ∧ t.modified = r.2)
    ∧ ((recentTechs g days).length ≤ 25 →
        ∀ t ∈ g.nodes, t.stix_type = "attack-pattern" → cutoffOf g days ≤ t.modified →
          (t.name, t.modified) ∈ D5_recently_modified g days) := by
  refine ⟨?_, ?_, ?_, ?_⟩
  · unfold D5_recently_modified
    exact List.length_take_le _ _
  · unfold D5_recently_modified
    have hpw := pairwise_sortBy (fun a b : Node => decide (b.modified ≤ a.modified))
      (fun a b c hab hbc => by
        simp only [decide_eq_true_eq] at hab hbc ⊢
        exact le_trans hbc hab)
      (fun a b => by
        rcases Int.le_total b.modified a.modified with h | h
        · exact Or.inl (by simpa using h)
        · exact Or.inr (by simpa using h))
      (recentTechs g days)
    exact List.Pairwise.sublist (List.take_sublist _ _)
      (hpw.map (fun t : Node => (t.name, t.modified)) (fun a b hab => by simpa using hab))
  · intro r hr
    unfold D5_recently_modified at hr
    have hr2 := List.mem_of_mem_take hr
    obtain ⟨t, hts, rfl⟩ := List.mem_map.mp hr2
    have htr : t ∈ recentTechs g days :=
      (mem_sortBy (fun a b : Node => decide (b.modified ≤ a.modified)) t _).mp hts
    have hf := List.mem_filter.mp htr
    have htn := List.mem_filter.mp hf.1
    exact ⟨by simpa using hf.2, t, htn.1, by simpa using htn.2, rfl, rfl⟩
  · intro hcap t htg hstix hcut
    have htr : t ∈ recentTechs g days := by
      unfold recentTechs nodesOfType
      simp [List.mem_filter, htg, hstix, hcut]
    unfold D5_recently_modified
    rw [List.take_of_length_le]
    · exact List.mem_map_of_mem _
        ((mem_sortBy (fun a b : Node => decide (b.modified ≤ a.modified)) t _).mpr htr)
    · rw [List.length_map, length_sortBy]
      exact hcap

/-- C5 witness: a technique whose `modified` equals the cutoff exactly
(`now - 1 day`) is included. -/
theorem c5_recent_witness :
    ("t1", (100 : Int)) ∈ D5_recently_modified fixtureD5 1 :=
  (c5_recent_thm fixtureD5 1).2.2.2 (by decide)
    { nid := 1, stix_type := "attack-pattern", name := "t1", modified := 100 }
    (by decide) (by decide) (by decide)

theorem mem_map_fst_pairs (v : κ → β) (le : κ → κ → Bool) (ks : List κ) (m : κ) :
    m ∈ ((sortBy le ks).map (fun k => (k, v k))).map (fun p : κ × β => p.1) ↔ m ∈ ks := by
  rw [List.map_map]
  constructor
  · intro hm
    obtain ⟨k, hk, he⟩ := List.mem_map.mp hm
    have hkm : k = m := he
    exact hkm ▸ (mem_sortBy le k ks).mp hk
  · intro hm
    exact List.mem_map.mpr ⟨m, (mem_sortBy le m ks).mpr hm, rfl⟩

/-- C2 counterexample: with two distinct technique nodes both named `tx`, one
mitigated and one not, `tx` is returned by the gap query AND is in C1's
technique-name set, refuting the claimed exact set complement. -/
theorem c2_complement_cex :
    "tx" ∈ C2_group_mitigation_gaps fixtureC2 "g1"
    ∧ "tx" ∈ (C1_group_mitigations fixtureC2 "g1").map (fun r => r.1)
    ∧ "tx" ∈ (usedTechRows fixtureC2 "g1").map (fun t => t.name) := by decide

/-- C2 (amended): the gap query keeps exactly the used technique NODES whose
outgoing-`mitigates` count is zero (optional-join semantics: absence of a
mitigating entity never removes the row), names sorted and capped at 50; and
WHEN the used techniques have pairwise distinct names and number at most 50,
its name set is exactly the used-technique names absent from C1's technique
set. -/
theorem c2_amended_thm (g : Graph) (f : String) :
    C2_group_mitigation_gaps g f = specC2 g f
    ∧ ((∀ t₁ ∈ usedTechRows g f, ∀ t₂ ∈ usedTechRows g f, t₁.name = t₂.name → t₁ = t₂) →
        (usedTechRows g f).length ≤ 50 →
        ∀ n : String, n ∈ C2_group_mitigation_gaps g f ↔
          (n ∈ (usedTechRows g f).map (fun t => t.name)
            ∧ n ∉ (C1_group_mitigations g f).map (fun r => r.1))) := by
  refine ⟨C2_eq_spec g f, ?_⟩
  intro hinj hcap n
  have hC2 : n ∈ C2_group_mitigation_gaps g f ↔
      ∃ t ∈ usedTechRows g f, coMit g t = [] ∧ t.name = n := by
    rw [C2_eq_spec g f]
    unfold specC2
    rw [List.take_of_length_le, mem_sortBy]
    · rw [List.mem_filterMap]
      constructor
      · rintro ⟨t, ht, hopt⟩
        by_cases hc : coMit g t = []
        · rw [if_pos hc] at hopt
          exact ⟨t, (mem_dedupFirst t _).mp ht, hc, Option.some.inj hopt⟩
        · rw [if_neg hc] at hopt
          cases hopt
      · rintro ⟨t, ht, hc, hn⟩
        exact ⟨t, (mem_dedupFirst t _).mpr ht, by rw [if_pos hc, hn]⟩
    · rw [length_sortBy]
      calc ((dedupFirst (usedTechRows g f)).filterMap
            (fun t => if coMit g t = [] then some t.name else none)).length
          ≤ (dedupFirst (usedTechRows g f)).length := List.length_filterMap_le _ _
        _ ≤ (usedTechRows g f).length := length_dedupFirst_le _
        _ ≤ 50 := hcap
  have hC1 : n ∈ (C1_group_mitigations g f).map (fun r => r.1) ↔
      ∃ t ∈ usedTechRows g f, coMit g t ≠ [] ∧ t.name = n := by
    rw [C1_eq_spec g f]
    unfold specC1_amended
    rw [List.map_take, List.take_of_length_le, mem_map_fst_pairs]
    · rw [mem_dedupFirst, List.mem_map]
      constructor
      · rintro ⟨t, ht, rfl⟩
        have hf := List.mem_filter.mp ht
        exact ⟨t, hf.1, by simpa using hf.2, rfl⟩
      · rintro ⟨t, ht, hc, rfl⟩
        exact ⟨t, List.mem_filter.mpr ⟨ht, by simpa using hc⟩, rfl⟩
    · rw [List.length_map, List.length_map, length_sortBy]
      calc (dedupFirst (((usedTechRows g f).filter
              (fun t => decide (coMit g t ≠ []))).map (fun t => t.name))).length
          ≤ (((usedTechRows g f).filter
              (fun t => decide (coMit g t ≠ []))).map (fun t => t.name)).length :=
            length_dedupFirst_le _
        _ = ((usedTechRows g f).filter (fun t => decide (coMit g t ≠ []))).length :=
            List.length_map _ _
        _ ≤ (usedTechRows g f).length := List.length_filter_le _ _
        _ ≤ 50 := hcap
  rw [hC2, hC1]
  constructor
  · rintro ⟨t, ht, hc, rfl⟩
    refine ⟨List.mem_map_of_mem _ ht, ?_⟩
    rintro ⟨t', ht', hc', hn'⟩
    exact hc' (congrArg (coMit g) (hinj t' ht' t ht hn') ▸ hc)
  · rintro ⟨hmem, hnot⟩
    obtain ⟨t, ht, rfl⟩ := List.mem_map.mp hmem
    by_cases hc : coMit g t = []
    · exact ⟨t, ht, hc, rfl⟩
    · exact absurd ⟨t, ht, hc, rfl⟩ hnot

/-- C2 witness: one group using one unmitigated technique — the technique is
reported as a gap by the amended complement characterization. -/
theorem c2_amended_witness :
    "t1" ∈ C2_group_mitigation_gaps fixtureGap "g1" :=
  (((c2_amended_thm fixtureGap "g1").2 (by decide) (by decide)) "t1").mpr (by decide)

/-- C8 counterexample: on the empty graph the zero-record result materializes
to a frame with NO columns (pandas derives columns from the records), refuting
the claim that the fixed column names are carried by an empty result. -/
theorem c8_columns_cex :
    (C4_detections_df noDataGraph "t").cols
      ≠ ["tech.name", "data_components", "data_sources"] := by decide

/-- C8 (amended): whenever `C4_detections_for_tech` yields at least one
record, the materialized table carries exactly the fixed column names
`tech.name`, `data_components`, `data_sources`; a zero-record result
materializes to an explicitly empty table (a table value, not an absent one)
with NO columns. -/
theorem c8_amended_thm (g : Graph) (f : String) :
    (C4_detections_records g f ≠ [] →
      (C4_detections_df g f).cols = ["tech.name", "data_components", "data_sources"])
    ∧ (C4_detections_records g f = [] →
      C4_detections_df g f = { cols := [], cells := [] }) := by
  constructor
  · intro hne
    have hc : (C4_detections_df g f).cols
        = dedupFirst ((C4_detections_records g f).flatMap (fun r => r.map (fun p => p.1))) :=
      rfl
    rw [hc, C4_records_keys]
    obtain ⟨r, rest, hr⟩ := List.exists_cons_of_ne_nil hne
    rw [hr, List.flatMap_cons]
    rw [dedupFirst_append_subset]
    · rfl
    · intro y hy
      obtain ⟨x, hx, hmem⟩ := List.mem_flatMap.mp hy
      exact hmem
  · intro hempty
    unfold C4_detections_df df_from_result
    rw [hempty]
    rfl

/-- C8 witness: with one matched technique the materialized table carries
exactly the three fixed column names. -/
theorem c8_amended_witness :
    (C4_detections_df fixtureSolo "t1").cols
      = ["tech.name", "data_components", "data_sources"] :=
  (c8_amended_thm fixtureSolo "t1").1
    (fun h => absurd (congrArg List.length h) (by decide))

/-- C10 counterexample: two technique nodes share the name `tx`, one with a
detector and one with none; the detectorless entity gets no row of its own and
no row carries detector count 0, refuting the per-entity zero-count claim. -/
theorem c10_zero_row_cex :
    (∃ t ∈ fixtureC10.nodes, t.stix_type = "attack-pattern" ∧ dcDetect fixtureC10 t = [])
    ∧ ∀ r ∈ C3_detection_coverage_top fixtureC10 25, r.2 ≠ 0 := by decide

/-- C10 (amended): when the limit covers all distinct technique names, every
technique NAME gets a row in `C3_detection_coverage_top`, and a name none of
whose bearer techniques has an incoming `detects` edge from a data component
appears with detector count exactly 0. -/
theorem c10_amended_thm (g : Graph) (limit : Nat)
    (hcap : (dedupFirst ((nodesOfType g "attack-pattern").map (fun t => t.name))).length
      ≤ limit) :
    ∀ t ∈ nodesOfType g "attack-pattern",
      (∃ c, (t.name, c) ∈ C3_detection_coverage_top g limit)
      ∧ ((∀ u ∈ nodesOfType g "attack-pattern", u.name = t.name → dcDetect g u = []) →
          (t.name, 0) ∈ C3_detection_coverage_top g limit) := by
  intro t ht
  rw [C3_eq_spec]
  unfold specC3_amended
  rw [List.take_of_length_le (by rw [length_sortBy, List.length_map]; exact hcap)]
  have hname : t.name ∈ dedupFirst ((nodesOfType g "attack-pattern").map (fun u => u.name)) :=
    (mem_dedupFirst _ _).mpr (List.mem_map_of_mem _ ht)
  constructor
  · refine ⟨(((nodesOfType g "attack-pattern").filter
        (fun u => decide (u.name = t.name))).flatMap (fun u => dcDetect g u)).length, ?_⟩
    rw [mem_sortBy]
    exact List.mem_map_of_mem _ hname
  · intro hnone
    rw [mem_sortBy]
    have hzero : ((nodesOfType g "attack-pattern").filter
        (fun u => decide (u.name = t.name))).flatMap (fun u => dcDetect g u) = [] := by
      apply List.flatMap_eq_nil_iff.mpr
      intro u hu
      have hmem := List.mem_filter.mp hu
      exact hnone u hmem.1 (by simpa using hmem.2)
    refine List.mem_map.mpr ⟨t.name, hname, ?_⟩
    rw [hzero]
    rfl

/-- C10 witness: a lone detectorless technique appears with count exactly 0. -/
theorem c10_amended_witness :
    ("t1", 0) ∈ C3_detection_coverage_top fixtureSolo 25 :=
  ((c10_amended_thm fixtureSolo 25 (by decide))
    { nid := 1, stix_type := "attack-pattern", name := "t1" } (by decide)).2 (by decide)
